import Mathlib

/-!
Verification development for the `context-env-guard` (SafeCfg) repository.

The embedding below follows `src/SafeCfg.ts` statement by statement:
JavaScript objects (`Record<string, any>`) become association lists of
string keys to `JVal` values, the `try`/`catch` in `SafeCfg.load` becomes
an `Except`, and possible mutation of the `config` argument is made
observable by threading the configuration value through every helper and
returning it alongside the result.  Parts of the repository that exist
only as interface declarations in `src/types.ts` (the dependency graph
behind schema compilation, and the secret-masking `ConfigResult`) are
modelled from the specification and are marked as such in their doc
comments.
-/

/-- A JavaScript value as it can appear in a configuration object:
`null`, a boolean, a number, a string, or a nested object. -/
inductive JVal : Type where
  | jNull : JVal
  | jBool : Bool → JVal
  | jNum : Int → JVal
  | jStr : String → JVal
  | jObj : List (String × JVal) → JVal
deriving Repr

/-- A JavaScript object (`Record<string, any>`): an association list of
string keys to values.  Property access returns the first binding. -/
abbrev Cfg : Type := List (String × JVal)

/-- The `SchemaDefinition` type from `src/SafeCfg.ts` (`{ [key: string]: any }`):
an arbitrary object.  The stub implementation never reads it. -/
abbrev SchemaDefinition : Type := Cfg

/-- JavaScript property access `obj.key`: the value bound to the first
occurrence of `key`, or `none` (i.e. `undefined`) when absent. -/
def lookupKey : Cfg → String → Option JVal
  | [], _ => none
  | (k, v) :: rest, key => if k == key then some v else lookupKey rest key

/-- JavaScript strict comparison `x === true`: holds exactly when the
property is present and is the boolean `true`. -/
def isStrictTrue : Option JVal → Bool
  | some (JVal.jBool true) => true
  | _ => false

/-- The options argument of the `SafeCfg` constructor; both fields are
optional in `SafeCfgOptions` (`environment?`, `strict?`). -/
structure SafeCfgOptions where
  environment : Option String := none
  strict : Option Bool := none

/-- A constructed `SafeCfg` instance: the stored schema and the resolved
options (the constructor always fills in both option fields). -/
structure SafeCfg where
  schema : SchemaDefinition
  environment : String
  strict : Bool

/-- JavaScript `v || d` on an optional string: the fallback `d` is used
when the value is absent or falsy (the empty string). -/
def jsOrString (v : Option String) (d : String) : String :=
  match v with
  | some s => if s == "" then d else s
  | none => d

/-- The `SafeCfg` constructor (`src/SafeCfg.ts` lines 22-29): the options
are `{ environment: process.env.NODE_ENV || 'development', strict: false,
...options }`, so an explicit option overrides the ambient default.
`ambientNodeEnv` is the value of `process.env.NODE_ENV` at construction
time. -/
def mkSafeCfg (ambientNodeEnv : Option String) (schema : SchemaDefinition)
    (opts : SafeCfgOptions) : SafeCfg :=
  { schema := schema
    environment := opts.environment.getD (jsOrString ambientNodeEnv "development")
    strict := opts.strict.getD false }

/-- The `ValidationResult` interface of `src/SafeCfg.ts`: `valid`,
`errors: string[]`, `warnings: string[]` (no other fields — in
particular no resulting configuration data). -/
structure ValidationResultS where
  valid : Bool
  errors : List String
  warnings : List String
deriving DecidableEq, Repr

/-- Method `SafeCfg.validateSchema` (`src/SafeCfg.ts` lines 73-76): the body is
a single `console.log`; it never throws, reads nothing from the config,
and writes nothing into it.  The returned value is the configuration
after the call (unchanged), inside `Except` because a JavaScript method
may in general throw. -/
def SafeCfg.validateSchema (_self : SafeCfg) (config : Cfg) : Except String Cfg :=
  Except.ok config

/-- The warning message pushed by `validateForProduction`. -/
def debugWarningMessage : String := "Debug mode is enabled in production environment"

/-- Method `SafeCfg.validateForProduction` (`src/SafeCfg.ts` lines 78-83): when
`config.debug === true` it pushes one warning; it never touches the
config.  Returns the updated warnings array and the configuration after
the call. -/
def SafeCfg.validateForProduction (_self : SafeCfg) (config : Cfg)
    (warnings : List String) : List String × Cfg :=
  if isStrictTrue (lookupKey config "debug") then
    (warnings ++ [debugWarningMessage], config)
  else
    (warnings, config)

/-- The `try` block of `SafeCfg.load` (`src/SafeCfg.ts` lines 38-45):
run `validateSchema`, then the production-only contextual check.
Produces the local `errors` and `warnings` arrays and the configuration
after the block, or the thrown message. -/
def SafeCfg.loadBody (self : SafeCfg) (config : Cfg) :
    Except String (List String × List String × Cfg) :=
  match self.validateSchema config with
  | Except.error e => Except.error e
  | Except.ok config1 =>
    let errors : List String := []
    let wc :=
      if self.environment == "production" then
        self.validateForProduction config1 []
      else
        ([], config1)
    Except.ok (errors, wc.1, wc.2)

/-- The result construction of `SafeCfg.load`: on normal completion it
returns `{ valid: errors.length === 0, errors, warnings }` (lines
47-51); a thrown error is caught and converted into
`{ valid: false, errors: ['Validation failed: ...'], warnings: [] }`
(lines 52-59).  The second component is the caller's configuration
object after the call. -/
def finishLoad (config : Cfg) :
    Except String (List String × List String × Cfg) → ValidationResultS × Cfg
  | Except.ok (errors, warnings, c) =>
    ({ valid := errors.length == 0, errors := errors, warnings := warnings }, c)
  | Except.error msg =>
    ({ valid := false, errors := ["Validation failed: " ++ msg], warnings := [] }, config)

/-- Method `SafeCfg.load` (`src/SafeCfg.ts` lines 34-60).  `ambient` is the
process-wide environment state available during the call; the method
body never consults it.  The function is total: every call produces a
`ValidationResultS` (the promise always resolves). -/
def SafeCfg.load (self : SafeCfg) (ambient : Option String) (config : Cfg) :
    ValidationResultS × Cfg :=
  finishLoad config (self.loadBody config)

/-- The concrete schema of the spec's examples:
`{db:{host:{type:'string',required:true}, port:{type:'number',default:5432}}}`. -/
def schemaDbExample : SchemaDefinition :=
  [("db", JVal.jObj
    [("host", JVal.jObj [("type", JVal.jStr "string"), ("required", JVal.jBool true)]),
     ("port", JVal.jObj [("type", JVal.jStr "number"), ("default", JVal.jNum 5432)])])]

/-- The config `{db:{}}` of the spec's second example. -/
def cfgDbEmpty : Cfg := [("db", JVal.jObj [])]

/-- The config `{db:{host:'localhost'}}` of the spec's first example. -/
def cfgDbHost : Cfg := [("db", JVal.jObj [("host", JVal.jStr "localhost")])]

/-- Dotted-path access into a value: `getPath v [k1, k2]` is `v.k1.k2`,
`none` when any step is absent or not an object. -/
def getPath (v : JVal) : List String → Option JVal
  | [] => some v
  | k :: ks =>
    match v with
    | JVal.jObj fields =>
      match lookupKey fields k with
      | some w => getPath w ks
      | none => none
    | _ => none

/-- Shared evaluation lemma: on any configuration whose `debug` property
is not strictly `true`, `load` returns `valid: true` with empty error
and warning lists and hands the configuration back unchanged, for every
environment and schema. -/
theorem load_of_not_debug (s : SchemaDefinition) (env : String) (st : Bool)
    (a : Option String) (cfg : Cfg)
    (h : isStrictTrue (lookupKey cfg "debug") = false) :
    SafeCfg.load ⟨s, env, st⟩ a cfg =
      ({ valid := true, errors := [], warnings := [] }, cfg) := by
  by_cases hp : env == "production" <;>
    simp [SafeCfg.load, SafeCfg.loadBody, SafeCfg.validateSchema, finishLoad,
      SafeCfg.validateForProduction, hp, h]

/-- C1: for every `SafeCfg` instance and every configuration, `load`
resolves with `valid === true` and an empty `errors` list, and the
result does not depend on the stored schema at all (the schema is never
consulted): the stub `validateSchema` rejects nothing. -/
theorem claim_C1_schema_never_rejects (s1 s2 : SchemaDefinition) (env : String)
    (st : Bool) (a : Option String) (cfg : Cfg) :
    (SafeCfg.load ⟨s1, env, st⟩ a cfg).1.valid = true ∧
    (SafeCfg.load ⟨s1, env, st⟩ a cfg).1.errors = [] ∧
    SafeCfg.load ⟨s1, env, st⟩ a cfg = SafeCfg.load ⟨s2, env, st⟩ a cfg := by
  by_cases hp : env == "production" <;>
    simp [SafeCfg.load, SafeCfg.loadBody, SafeCfg.validateSchema, finishLoad,
      SafeCfg.validateForProduction, hp]

/-- For every outcome of the `try` block, the result built by `load`
has `valid = true` exactly when its error list is empty: the success
branch computes `valid` as `errors.length === 0` and the catch branch
returns `valid: false` with one error.  Every entry of the `errors`
array is an error entry (the `ValidationError` type of `types.ts` only
admits severities `error` and `fatal`), and `warnings` never enters the
computation of `valid`. -/
theorem finishLoad_valid_iff_errors_nil (cfg : Cfg)
    (r : Except String (List String × List String × Cfg)) :
    (finishLoad cfg r).1.valid = true ↔ (finishLoad cfg r).1.errors = [] := by
  cases r with
  | ok t =>
    obtain ⟨e, w, c⟩ := t
    simp [finishLoad, List.length_eq_zero]
  | error m => simp [finishLoad]

/-- C2: for every `load` call, `valid` is `true` iff the recorded error
list is empty (equivalently, iff it has no entry of severity `error` or
`fatal`, since those are the only severities an error entry can carry);
warnings never affect `valid`. -/
theorem claim_C2_valid_iff_no_errors (inst : SafeCfg) (a : Option String) (cfg : Cfg) :
    (inst.load a cfg).1.valid = true ↔ (inst.load a cfg).1.errors = [] :=
  finishLoad_valid_iff_errors_nil cfg (inst.loadBody cfg)

/-- C3 (code evaluation): on the spec's example schema and the config
`{db:{}}`, the implementation returns `valid: true` with no errors in
every environment — it does not produce the `REQUIRED_FIELD_MISSING`
error at `db.host` that the specification requires, because
`validateSchema` is a stub. -/
theorem claim_C3_code_result (env : String) (st : Bool) (a : Option String) :
    (SafeCfg.load ⟨schemaDbExample, env, st⟩ a cfgDbEmpty).1.valid = true ∧
    (SafeCfg.load ⟨schemaDbExample, env, st⟩ a cfgDbEmpty).1.errors = [] := by
  rw [load_of_not_debug schemaDbExample env st a cfgDbEmpty (by decide)]
  exact ⟨rfl, rfl⟩

/-- C4: the built-in production check fires exactly when the configured
environment is `production` and `config.debug === true`; in that case
the single warning is the debug-mode message, otherwise the warning
list is empty, and `valid` is `true` either way. -/
theorem claim_C4_production_debug_warning (inst : SafeCfg) (a : Option String)
    (cfg : Cfg) :
    ((inst.load a cfg).1.warnings =
      if inst.environment = "production" ∧ isStrictTrue (lookupKey cfg "debug") = true
      then [debugWarningMessage] else []) ∧
    (inst.load a cfg).1.valid = true := by
  obtain ⟨s, env, st⟩ := inst
  by_cases hp : env = "production" <;>
    by_cases hd : isStrictTrue (lookupKey cfg "debug") = true <;>
      simp [SafeCfg.load, SafeCfg.loadBody, SafeCfg.validateSchema, finishLoad,
        SafeCfg.validateForProduction, hp, hd]

/-- C5: the catch branch of `load` converts any thrown failure into a
resolved result with `valid: false`, exactly one synthetic error entry
describing the failure, and an empty warning list; and every `load`
call goes through this total wrapper, so `load` always resolves. -/
theorem claim_C5_internal_failure_caught (cfg : Cfg) (e : String) :
    (finishLoad cfg (Except.error e)).1.valid = false ∧
    (finishLoad cfg (Except.error e)).1.errors = ["Validation failed: " ++ e] ∧
    (finishLoad cfg (Except.error e)).1.warnings = [] ∧
    (∀ (inst : SafeCfg) (a : Option String) (c : Cfg),
      inst.load a c = finishLoad c (inst.loadBody c)) := by
  exact ⟨rfl, rfl, rfl, fun _ _ _ => rfl⟩

/-- C6 (code evaluation): on the spec's example schema and the config
`{db:{host:'localhost'}}`, `load` returns only the triple
`{valid: true, errors: [], warnings: []}` and hands the configuration
back unchanged in every environment: no resulting configuration is
produced and the declared default `5432` is never written to `db.port`,
which remains absent. -/
theorem claim_C6_code_result (env : String) (st : Bool) (a : Option String) :
    SafeCfg.load ⟨schemaDbExample, env, st⟩ a cfgDbHost =
      ({ valid := true, errors := [], warnings := [] }, cfgDbHost) ∧
    getPath (JVal.jObj (SafeCfg.load ⟨schemaDbExample, env, st⟩ a cfgDbHost).2)
      ["db", "port"] = none := by
  rw [load_of_not_debug schemaDbExample env st a cfgDbHost (by decide)]
  exact ⟨rfl, rfl⟩

/-- C9: a `load` call is a function of the instance and the config
alone; the ambient process-wide state available during the call is
never consulted, so two calls with equal configs on the same instance
return equal results. -/
theorem claim_C9_deterministic (inst : SafeCfg) (a1 a2 : Option String) (cfg : Cfg) :
    inst.load a1 cfg = inst.load a2 cfg := rfl

/-- C10: `load` never mutates its input: the configuration object after
the call (threaded through every helper the body invokes) is exactly
the configuration that was passed in. -/
theorem claim_C10_no_mutation (inst : SafeCfg) (a : Option String) (cfg : Cfg) :
    (inst.load a cfg).2 = cfg := by
  obtain ⟨s, env, st⟩ := inst
  by_cases hp : env == "production" <;>
    by_cases hd : isStrictTrue (lookupKey cfg "debug") <;>
      simp [SafeCfg.load, SafeCfg.loadBody, SafeCfg.validateSchema, finishLoad,
        SafeCfg.validateForProduction, hp, hd]

/-- Modelled from the spec: the dependency-edge kinds of the
`DependencyGraph` interface declared in `src/types.ts` lines 361-367
(`addDependency(from, to, type: 'requires' | 'conflicts')`); the
repository contains no implementation of the interface. -/
inductive DepKind : Type where
  | requires : DepKind
  | conflicts : DepKind
deriving DecidableEq, Repr

/-- Whether an edge kind is the `requires` kind (the only kind that
participates in cycle detection, per the spec). -/
def DepKind.isReq : DepKind → Bool
  | DepKind.requires => true
  | DepKind.conflicts => false

/-- A directed dependency edge between two field paths (`from`/`to` in
the source interface; renamed `src`/`dst` because `from` is a Lean
keyword). -/
structure DepEdge where
  src : String
  dst : String
  kind : DepKind
deriving DecidableEq, Repr

/-- Modelled from the spec: a dependency graph is the collection of
edges inserted by `addDependency`. -/
abbrev DepGraph : Type := List DepEdge

/-- Modelled from the spec: `addDependency` inserts a directed edge and
is idempotent on duplicate identical edges. -/
def addDependency (g : DepGraph) (src dst : String) (kind : DepKind) : DepGraph :=
  if DepEdge.mk src dst kind ∈ g then g else g ++ [DepEdge.mk src dst kind]

/-- Whether the graph has a `requires` edge from `a` to `b`. -/
def requiresEdge (g : DepGraph) (a b : String) : Bool :=
  g.any fun e => e.kind.isReq && e.src == a && e.dst == b

/-- The vertices of the `requires` subgraph: every endpoint of a
`requires` edge, without duplicates. -/
def requiresNodes (g : DepGraph) : List String :=
  (((g.filter fun e => e.kind.isReq).map DepEdge.src) ++
    ((g.filter fun e => e.kind.isReq).map DepEdge.dst)).dedup

/-- The `requires`-successors of a vertex. -/
def succList (g : DepGraph) (a : String) : List String :=
  (g.filter fun e => e.kind.isReq && e.src == a).map DepEdge.dst

/-- Bounded reachability: `reachN g n a b` holds when some `requires`
path of length between `1` and `n` leads from `a` to `b`. -/
def reachN (g : DepGraph) : Nat → String → String → Bool
  | 0, _, _ => false
  | n + 1, a, b => (succList g a).any fun m => m == b || reachN g n m b

/-- One `requires` step, as a relation. -/
def ReqStep (g : DepGraph) (a b : String) : Prop :=
  requiresEdge g a b = true

instance (g : DepGraph) (a b : String) : Decidable (ReqStep g a b) :=
  inferInstanceAs (Decidable (requiresEdge g a b = true))

/-- A closed `requires` walk from `a` back to `a` whose intermediate
vertices are `l` (so its length is `l.length + 1 ≥ 1`). -/
def ClosedWalkFrom (g : DepGraph) (a : String) (l : List String) : Prop :=
  List.Chain' (ReqStep g) (a :: l ++ [a])

/-- Executable walk check: every consecutive pair of the list is a
`requires` edge. -/
def chainB (g : DepGraph) : List String → Bool
  | [] => true
  | [_] => true
  | a :: b :: rest => requiresEdge g a b && chainB g (b :: rest)

/-- The executable walk check decides `List.Chain'` of `ReqStep`. -/
theorem chainB_iff_chain (g : DepGraph) :
    ∀ l : List String, chainB g l = true ↔ List.Chain' (ReqStep g) l := by
  intro l
  induction l with
  | nil => simp [chainB]
  | cons x xs ih =>
    cases xs with
    | nil => simp [chainB]
    | cons y ys =>
      simp only [chainB, Bool.and_eq_true]
      rw [List.chain'_cons, ih]
      exact Iff.rfl

instance (g : DepGraph) (a : String) (l : List String) :
    Decidable (ClosedWalkFrom g a l) :=
  decidable_of_iff (chainB g (a :: l ++ [a]) = true)
    (chainB_iff_chain g (a :: l ++ [a]))

/-- The `requires` subgraph contains a cycle. -/
def cycleExists (g : DepGraph) : Prop :=
  ∃ a l, ClosedWalkFrom g a l

/-- Modelled from the spec: `hasCircularDependency` of the
`DependencyGraph` interface — true iff the `requires` subgraph has a
cycle; implemented by bounded reachability from every vertex (a cycle,
if any, can always be shortened below the vertex count). -/
def hasCircularDependency (g : DepGraph) : Bool :=
  (requiresNodes g).any fun n => reachN g (requiresNodes g).length n n

/-- The first vertex found to lie on a `requires` cycle, if any. -/
def findCycleMember (g : DepGraph) : Option String :=
  (requiresNodes g).find? fun n => reachN g (requiresNodes g).length n n

/-- Modelled from the spec: the compile-time `SchemaError` value (code
and message) of `§7`'s taxonomy. -/
structure SchemaErrorM where
  code : String
  message : String
deriving DecidableEq, Repr

/-- The `SchemaError` raised for a dependency cycle, naming one cycle
member. -/
def circularDependencyError (n : String) : SchemaErrorM :=
  { code := "CIRCULAR_DEPENDENCY"
    message := "Circular dependency detected involving field: " ++ n }

/-- Modelled from the spec: the dependency-checking step of schema
compilation (`§4.1`/`§4.2`) — compilation fails with `SchemaError`
code `CIRCULAR_DEPENDENCY` when the dependency graph has a `requires`
cycle, before any validation runs; otherwise it succeeds. -/
def compileDependencies (g : DepGraph) : Except SchemaErrorM DepGraph :=
  match findCycleMember g with
  | some n => Except.error (circularDependencyError n)
  | none => Except.ok g

/-- Membership in the successor list is exactly having a `requires`
edge. -/
theorem mem_succList {g : DepGraph} {a m : String} :
    m ∈ succList g a ↔ requiresEdge g a m = true := by
  simp only [succList, requiresEdge, List.mem_map, List.mem_filter,
    List.any_eq_true, Bool.and_eq_true, beq_iff_eq]
  constructor
  · rintro ⟨e, ⟨he, hk, hs⟩, hd⟩
    exact ⟨e, he, ⟨hk, hs⟩, hd⟩
  · rintro ⟨e, he, ⟨hk, hs⟩, hd⟩
    exact ⟨e, ⟨he, hk, hs⟩, hd⟩

/-- The source of a `requires` edge is a vertex of the subgraph. -/
theorem reqStep_src_mem {g : DepGraph} {a b : String}
    (h : requiresEdge g a b = true) : a ∈ requiresNodes g := by
  rcases List.any_eq_true.mp h with ⟨e, he, hp⟩
  simp only [Bool.and_eq_true, beq_iff_eq] at hp
  obtain ⟨⟨hk, hs⟩, _⟩ := hp
  simp only [requiresNodes, List.mem_dedup, List.mem_append, List.mem_map,
    List.mem_filter]
  exact Or.inl ⟨e, ⟨he, hk⟩, hs⟩

/-- The target of a `requires` edge is a vertex of the subgraph. -/
theorem reqStep_dst_mem {g : DepGraph} {a b : String}
    (h : requiresEdge g a b = true) : b ∈ requiresNodes g := by
  rcases List.any_eq_true.mp h with ⟨e, he, hp⟩
  simp only [Bool.and_eq_true, beq_iff_eq] at hp
  obtain ⟨⟨hk, _⟩, hd⟩ := hp
  simp only [requiresNodes, List.mem_dedup, List.mem_append, List.mem_map,
    List.mem_filter]
  exact Or.inr ⟨e, ⟨he, hk⟩, hd⟩

/-- Completeness of bounded reachability: a `requires` walk with
intermediate vertices `l` is found by `reachN` at any bound above
`l.length`. -/
theorem reachN_complete (g : DepGraph) :
    ∀ (l : List String) (a b : String) (n : Nat),
      List.Chain' (ReqStep g) (a :: l ++ [b]) → l.length < n →
      reachN g n a b = true := by
  intro l
  induction l with
  | nil =>
    intro a b n hc hn
    cases n with
    | zero => omega
    | succ n =>
      simp only [List.cons_append, List.nil_append] at hc
      rw [List.chain'_cons] at hc
      simp only [reachN]
      exact List.any_eq_true.mpr ⟨b, mem_succList.mpr hc.1, by simp⟩
  | cons x xs ih =>
    intro a b n hc hn
    cases n with
    | zero => simp at hn
    | succ n =>
      simp only [List.cons_append] at hc
      rw [List.chain'_cons] at hc
      simp only [reachN]
      refine List.any_eq_true.mpr ⟨x, mem_succList.mpr hc.1, ?_⟩
      have hr : reachN g n x b = true := by
        refine ih x b n hc.2 ?_
        simp only [List.length_cons] at hn
        omega
      simp [hr]

/-- Soundness of bounded reachability: whenever `reachN` answers true
there is an actual `requires` walk. -/
theorem reachN_sound (g : DepGraph) :
    ∀ (n : Nat) (a b : String), reachN g n a b = true →
      ∃ l, List.Chain' (ReqStep g) (a :: l ++ [b]) := by
  intro n
  induction n with
  | zero => intro a b h; simp [reachN] at h
  | succ n ih =>
    intro a b h
    simp only [reachN] at h
    rcases List.any_eq_true.mp h with ⟨m, hm, hmb⟩
    have hedge : ReqStep g a m := mem_succList.mp hm
    rcases Bool.or_eq_true_iff.mp hmb with hb | hr
    · have hmb' : m = b := by simpa using hb
      subst hmb'
      exact ⟨[], List.chain'_cons.mpr ⟨hedge, List.chain'_singleton _⟩⟩
    · rcases ih m b hr with ⟨l, hl⟩
      refine ⟨m :: l, ?_⟩
      show List.Chain' (ReqStep g) (a :: m :: (l ++ [b]))
      exact List.chain'_cons.mpr ⟨hedge, hl⟩

/-- Every vertex after the head of a `requires` chain is a vertex of
the subgraph (it is the target of some edge). -/
theorem chain_tail_mem (g : DepGraph) :
    ∀ (xs : List String) (x : String), List.Chain' (ReqStep g) (x :: xs) →
      ∀ y ∈ xs, y ∈ requiresNodes g := by
  intro xs
  induction xs with
  | nil => intro x _ y hy; cases hy
  | cons z zs ih =>
    intro x hc y hy
    rw [List.chain'_cons] at hc
    rcases List.mem_cons.mp hy with rfl | hy2
    · exact reqStep_dst_mem hc.1
    · exact ih z hc.2 y hy2

/-- The start of a closed walk is a vertex of the subgraph. -/
theorem closedWalk_start_mem (g : DepGraph) {a : String} {l : List String}
    (hw : ClosedWalkFrom g a l) : a ∈ requiresNodes g := by
  cases l with
  | nil =>
    have hw' : List.Chain' (ReqStep g) (a :: a :: []) := hw
    rw [List.chain'_cons] at hw'
    exact reqStep_src_mem hw'.1
  | cons x xs =>
    have hw' : List.Chain' (ReqStep g) (a :: x :: (xs ++ [a])) := hw
    rw [List.chain'_cons] at hw'
    exact reqStep_src_mem hw'.1

/-- A list that is not duplicate-free splits around a repeated
element. -/
theorem not_nodup_decomp {α : Type} :
    ∀ {l : List α}, ¬l.Nodup →
      ∃ (l1 : List α) (x : α) (l2 l3 : List α), l = l1 ++ x :: l2 ++ x :: l3 := by
  intro l
  induction l with
  | nil => intro h; exact absurd List.nodup_nil h
  | cons y ys ih =>
    intro h
    by_cases hy : y ∈ ys
    · rcases List.append_of_mem hy with ⟨s, t, rfl⟩
      exact ⟨[], y, s, t, rfl⟩
    · have hys : ¬ys.Nodup := fun hn => h (List.nodup_cons.mpr ⟨hy, hn⟩)
      rcases ih hys with ⟨l1, x, l2, l3, rfl⟩
      exact ⟨y :: l1, x, l2, l3, rfl⟩

/-- Cycle shortening: any closed `requires` walk yields one whose
intermediate-vertex list is shorter than the vertex count, by cutting
at a repeated vertex (pigeonhole). -/
theorem closedWalk_shorten (g : DepGraph) :
    ∀ (n : Nat) (a : String) (l : List String), l.length ≤ n →
      ClosedWalkFrom g a l →
      ∃ b m, m.length < (requiresNodes g).length ∧ ClosedWalkFrom g b m := by
  intro n
  induction n with
  | zero =>
    intro a l hl hw
    have hl0 : l = [] := List.eq_nil_of_length_eq_zero (Nat.le_zero.mp hl)
    subst hl0
    have ha : a ∈ requiresNodes g := closedWalk_start_mem g hw
    exact ⟨a, [], List.length_pos.mpr (List.ne_nil_of_mem ha), hw⟩
  | succ n ih =>
    intro a l hl hw
    by_cases hsmall : l.length < (requiresNodes g).length
    · exact ⟨a, l, hsmall, hw⟩
    · have hw' : List.Chain' (ReqStep g) (a :: (l ++ [a])) := hw
      have hsub : ∀ y ∈ l, y ∈ requiresNodes g := fun y hy =>
        chain_tail_mem g (l ++ [a]) a hw' y (List.mem_append_left _ hy)
      by_cases hnd : l.Nodup
      · by_cases hal : a ∈ l
        · rcases List.append_of_mem hal with ⟨l1, l2, rfl⟩
          have hsuf : (a :: l2 ++ [a]) <:+ (a :: (l1 ++ a :: l2) ++ [a]) := by
            refine ⟨a :: l1, ?_⟩
            simp
          have hw2 : ClosedWalkFrom g a l2 := List.Chain'.suffix hw hsuf
          refine ih a l2 ?_ hw2
          have := hl
          simp only [List.length_append, List.length_cons] at this
          omega
        · exfalso
          have hnd2 : (a :: l).Nodup := List.nodup_cons.mpr ⟨hal, hnd⟩
          have hsub2 : (a :: l) ⊆ requiresNodes g := by
            intro y hy
            rcases List.mem_cons.mp hy with rfl | hy2
            · exact closedWalk_start_mem g hw
            · exact hsub y hy2
          have hlen := (hnd2.subperm hsub2).length_le
          simp only [List.length_cons] at hlen
          omega
      · rcases not_nodup_decomp hnd with ⟨l1, x, l2, l3, rfl⟩
        have hinf : (x :: l2 ++ [x]) <:+: (a :: (l1 ++ x :: l2 ++ x :: l3) ++ [a]) := by
          refine ⟨a :: l1, l3 ++ [a], ?_⟩
          simp
        have hw2 : ClosedWalkFrom g x l2 := List.Chain'.infix hw hinf
        refine ih x l2 ?_ hw2
        have := hl
        simp only [List.length_append, List.length_cons] at this
        omega

/-- C7: for every dependency graph whose `requires` edges contain a
cycle, the compile step fails with a `SchemaError` of code
`CIRCULAR_DEPENDENCY` naming a member `n` that genuinely lies on a
cycle (a closed `requires` walk from `n` exists). -/
theorem claim_C7_cycle_fails_compile (g : DepGraph) (hcyc : cycleExists g) :
    ∃ n, (∃ l, ClosedWalkFrom g n l) ∧
      compileDependencies g = Except.error (circularDependencyError n) := by
  rcases hcyc with ⟨a, l, hw⟩
  rcases closedWalk_shorten g l.length a l (Nat.le_refl _) hw with ⟨b, m, hm, hwm⟩
  have hreach : reachN g (requiresNodes g).length b b = true :=
    reachN_complete g m b b _ hwm hm
  have hbmem : b ∈ requiresNodes g := closedWalk_start_mem g hwm
  have hfind : (findCycleMember g).isSome := by
    unfold findCycleMember
    rw [List.find?_isSome]
    exact ⟨b, hbmem, hreach⟩
  rcases Option.isSome_iff_exists.mp hfind with ⟨nm, hn⟩
  have hn2 : (requiresNodes g).find?
      (fun n => reachN g (requiresNodes g).length n n) = some nm := hn
  have hp := List.find?_some hn2
  rcases reachN_sound g (requiresNodes g).length nm nm hp with ⟨l2, hl2⟩
  refine ⟨nm, ⟨l2, hl2⟩, ?_⟩
  unfold compileDependencies
  rw [hn]

/-- A two-vertex `requires` cycle: `a` requires `b` and `b` requires
`a`. -/
def gCycleExample : DepGraph :=
  [DepEdge.mk "a" "b" DepKind.requires, DepEdge.mk "b" "a" DepKind.requires]

/-- Witness for C7: the concrete two-vertex cycle graph satisfies the
cycle hypothesis and compilation fails on it with
`CIRCULAR_DEPENDENCY`. -/
theorem claim_C7_witness :
    cycleExists gCycleExample ∧
    ∃ n, (∃ l, ClosedWalkFrom gCycleExample n l) ∧
      compileDependencies gCycleExample =
        Except.error (circularDependencyError n) :=
  ⟨⟨"a", ["b"], by decide⟩,
    claim_C7_cycle_fails_compile gCycleExample ⟨"a", ["b"], by decide⟩⟩

/-- Sanity check: the compile step succeeds on an acyclic graph, so it
does not reject unconditionally. -/
theorem compileDependencies_ok_acyclic :
    compileDependencies [DepEdge.mk "a" "b" DepKind.requires] =
      Except.ok [DepEdge.mk "a" "b" DepKind.requires] := rfl

/-- Modelled from the spec: a compiled schema path as far as secret
masking is concerned — a dotted `path` and its `isSecret` flag (the
`CompiledPath` interface of `src/types.ts`; the repository contains no
implementation of compilation or masking). -/
structure CompiledPathM where
  path : String
  isSecret : Bool
deriving DecidableEq, Repr

/-- The fixed redaction marker substituted for secret values. -/
def redactionMarker : String := "***REDACTED***"

/-- Whether the compiled schema marks `p` as `secret: true`. -/
def isSecretPath (paths : List CompiledPathM) (p : String) : Bool :=
  paths.any fun cp => cp.path == p && cp.isSecret

/-- Modelled from the spec: secret masking replaces the value bound at
every `secret: true` path with the fixed redaction marker and leaves
every other binding untouched. -/
def maskSecrets (paths : List CompiledPathM) (cfg : Cfg) : Cfg :=
  cfg.map fun kv =>
    if isSecretPath paths kv.1 then (kv.1, JVal.jStr redactionMarker) else kv

/-- Modelled from the spec: the data views of the `ConfigResult`
interface (`src/types.ts` lines 439-454) — `config`, `safeConfig`
(secrets masked) and `rawConfig` (the literal data). -/
structure ConfigResultM where
  config : Cfg
  safeConfig : Cfg
  rawConfig : Cfg

/-- Modelled from the spec: building the `ConfigResult` views from a
loaded configuration: `safeConfig` is the masked copy, `rawConfig` the
literal one. -/
def mkConfigResult (paths : List CompiledPathM) (cfg : Cfg) : ConfigResultM :=
  { config := cfg, safeConfig := maskSecrets paths cfg, rawConfig := cfg }

/-- Looking a key up in the masked configuration gives the original
value, with the redaction marker substituted when the key is a secret
path. -/
theorem lookupKey_maskSecrets (paths : List CompiledPathM) :
    ∀ (cfg : Cfg) (p : String),
      lookupKey (maskSecrets paths cfg) p =
        (lookupKey cfg p).map fun v =>
          if isSecretPath paths p then JVal.jStr redactionMarker else v := by
  intro cfg
  induction cfg with
  | nil => intro p; rfl
  | cons kv rest ih =>
    intro p
    obtain ⟨k, v⟩ := kv
    have hst : maskSecrets paths ((k, v) :: rest) =
        (if isSecretPath paths k then (k, JVal.jStr redactionMarker) else (k, v))
          :: maskSecrets paths rest := rfl
    rw [hst]
    by_cases hs : isSecretPath paths k = true
    · rw [if_pos hs]
      by_cases hk : (k == p) = true
      · have hk2 : k = p := by simpa using hk
        subst hk2
        simp [lookupKey, hs]
      · simp only [lookupKey, hk]
        simp only [Bool.false_eq_true, if_false]
        exact ih p
    · rw [if_neg hs]
      by_cases hk : (k == p) = true
      · have hk2 : k = p := by simpa using hk
        subst hk2
        simp [lookupKey, hs]
      · simp only [lookupKey, hk]
        simp only [Bool.false_eq_true, if_false]
        exact ih p

/-- C8: for every compiled-path table and configuration, at every path
marked `secret: true` the `safeConfig` view holds the fixed redaction
marker — so (whenever the stored value is not itself the marker) it
does not contain the literal value — while `rawConfig` holds exactly
the literal value. -/
theorem claim_C8_secret_masking (paths : List CompiledPathM) (cfg : Cfg)
    (p : String) (v : JVal) (hsec : isSecretPath paths p = true)
    (hv : lookupKey cfg p = some v) :
    lookupKey (mkConfigResult paths cfg).rawConfig p = some v ∧
    lookupKey (mkConfigResult paths cfg).safeConfig p =
      some (JVal.jStr redactionMarker) ∧
    (v ≠ JVal.jStr redactionMarker →
      lookupKey (mkConfigResult paths cfg).safeConfig p ≠ some v) := by
  have hsafe : (mkConfigResult paths cfg).safeConfig = maskSecrets paths cfg := rfl
  have hmask : lookupKey (maskSecrets paths cfg) p =
      some (JVal.jStr redactionMarker) := by
    rw [lookupKey_maskSecrets, hv]
    simp [hsec]
  refine ⟨hv, by rw [hsafe, hmask], ?_⟩
  intro hne hcontra
  rw [hsafe, hmask] at hcontra
  exact hne (Option.some_injective _ hcontra).symm

/-- The compiled-path table of the witness: one secret field. -/
def secretPathsExample : List CompiledPathM := [CompiledPathM.mk "password" true]

/-- The configuration of the witness: a secret and a non-secret field. -/
def cfgSecretExample : Cfg :=
  [("password", JVal.jStr "hunter2"), ("user", JVal.jStr "bob")]

/-- Witness for C8: on the concrete table and configuration, the
hypotheses hold and masking hides the secret literal while `rawConfig`
keeps it. -/
theorem claim_C8_witness :
    isSecretPath secretPathsExample "password" = true ∧
    lookupKey cfgSecretExample "password" = some (JVal.jStr "hunter2") ∧
    (lookupKey (mkConfigResult secretPathsExample cfgSecretExample).rawConfig
        "password" = some (JVal.jStr "hunter2") ∧
      lookupKey (mkConfigResult secretPathsExample cfgSecretExample).safeConfig
        "password" = some (JVal.jStr redactionMarker) ∧
      (JVal.jStr "hunter2" ≠ JVal.jStr redactionMarker →
        lookupKey (mkConfigResult secretPathsExample cfgSecretExample).safeConfig
          "password" ≠ some (JVal.jStr "hunter2"))) :=
  ⟨rfl, rfl,
    claim_C8_secret_masking secretPathsExample cfgSecretExample "password"
      (JVal.jStr "hunter2") rfl rfl⟩
